import Mathlib

/-!
Verification of the resumable batch-labeling pipeline and the demo-example
curator of the LLM ticket classification repository.

The Python sources are shallowly embedded:
- src/utils.py        : chunked, clean_text, read_done_ids, RateLimiter
- src/label_batch.py  : label_one_batch, main (orchestrator loop + ledger merge)
- src/schemas.py      : LabeledRequest / BatchResponse pydantic validation
- src/build_demo_examples.py : compute_priority_targets, build_example_set, main

Pure functions become Lean functions; the orchestrator's mutable loop becomes
explicit state passing; Python exceptions become Except values; pandas frames
become lists of typed rows (a cell that may be NaN is an Option).
-/

namespace TicketPipeline

/-! ## Batcher: src/utils.py, chunked (lines 29-31)

Python: for i in range(0, len(seq), n): yield seq[i:i+n]
For n greater than 0 this yields consecutive slices of length n (last may be
shorter).  For n = 0, range raises ValueError (step must not be zero); for
n negative, range(0, len(seq), n) is empty, so the generator silently yields
nothing. -/

/-- Positive-step slicing loop of chunked: consecutive groups of n elements. -/
def chunksOf (n : Nat) (seq : List α) : List (List α) :=
  match n, seq with
  | _, [] => []
  | 0, _ :: _ => []
  | m + 1, x :: xs => ((x :: xs).take (m + 1)) :: chunksOf (m + 1) ((x :: xs).drop (m + 1))
termination_by seq.length
decreasing_by
  simp only [List.length_drop, List.length_cons]
  omega

/-- Python runtime error raised by the range builtin for a zero step. -/
inductive PyError where
  | valueError : PyError
deriving DecidableEq, Repr

/-- Embedding of chunked(seq, n) from src/utils.py over an arbitrary integer
size n, with the range builtin's behavior at non-positive steps: step 0 raises
ValueError, a negative step makes range(0, len(seq), n) empty. -/
def chunked (seq : List α) (n : Int) : Except PyError (List (List α)) :=
  if n = 0 then Except.error PyError.valueError
  else if n < 0 then Except.ok []
  else Except.ok (chunksOf n.toNat seq)

/-! ## Ledger records and merge: src/label_batch.py lines 91-102

The snapshot CSV rows have the shape of LabeledRequest.model_dump()
(src/schemas.py lines 6-10).  The merge is
  pd.concat([existing, pred_df]).drop_duplicates(subset=["id"])
and pandas drop_duplicates defaults to keep="first". -/

/-- A validated label result row (src/schemas.py, class LabeledRequest). -/
structure LabeledRequest where
  id : Int
  Priority : String
  Service_Category : String
  Suggested_Actions : String
deriving DecidableEq, Repr

/-- Pandas drop_duplicates on a key, keep="first": keeps the first row bearing
each key value, in order.  The seen argument holds keys already emitted. -/
def dropDupFirstAux (key : α → Int) (seen : List Int) : List α → List α
  | [] => []
  | x :: xs =>
    if key x ∈ seen then dropDupFirstAux key seen xs
    else x :: dropDupFirstAux key (key x :: seen) xs

/-- Pandas drop_duplicates(subset=[key]) with the default keep="first". -/
def dropDupFirst (key : α → Int) (l : List α) : List α :=
  dropDupFirstAux key [] l

/-- Pandas drop_duplicates(subset=[key], keep="last"): keeps the last row
bearing each key value, at its (last) position. -/
def dropDupLast (key : α → Int) (l : List α) : List α :=
  (dropDupFirst key l.reverse).reverse

/-- Merge step of main (src/label_batch.py lines 96-100): concatenate the
existing snapshot with the run's new predictions and drop duplicate ids. -/
def mergeSnapshot (existing newRecs : List LabeledRequest) : List LabeledRequest :=
  dropDupFirst LabeledRequest.id (existing ++ newRecs)

/-- The value a ledger snapshot holds for an id: the first row with that id. -/
def findById (i : Int) (l : List LabeledRequest) : Option LabeledRequest :=
  l.find? (fun r => r.id == i)

/-! ## Label client adapter: src/label_batch.py lines 28-42, src/schemas.py

label_one_batch sends one request and runs
BatchResponse.model_validate_json(resp.text).  Pydantic validation checks the
shape only: a top-level object with a results array whose members carry the
four typed fields of LabeledRequest.  It performs no cross-check of the
returned ids or count against the submitted items and no membership check of
Priority or Service_Category against the allowed sets (those enums are only
injected into the outbound request schema by make_response_schema). -/

/-- Parsed JSON value, the shape pydantic model_validate_json works on. -/
inductive JVal where
  | jnull : JVal
  | jint : Int → JVal
  | jstr : String → JVal
  | jarr : List JVal → JVal
  | jobj : List (String × JVal) → JVal

/-- Field access on a JSON object; json.loads keeps the last duplicate key. -/
def jget (fields : List (String × JVal)) (k : String) : Option JVal :=
  (fields.reverse.find? (fun f => f.1 == k)).map (fun f => f.2)

/-- Pydantic lax coercion to int: accepts a JSON integer or an integer-shaped
string. -/
def coerceInt : JVal → Option Int
  | JVal.jint n => some n
  | JVal.jstr s => s.toInt?
  | _ => none

/-- Pydantic coercion to str: accepts a JSON string only. -/
def coerceStr : JVal → Option String
  | JVal.jstr s => some s
  | _ => none

/-- Pydantic validation of one LabeledRequest object (src/schemas.py 6-10):
an object with the four fields of the right types.  No enum membership is
checked on Priority or Service_Category. -/
def validateLabeledRequest : JVal → Option LabeledRequest
  | JVal.jobj fields =>
    match jget fields "id" with
    | none => none
    | some jid =>
      match coerceInt jid with
      | none => none
      | some i =>
        match (jget fields "Priority").bind coerceStr with
        | none => none
        | some p =>
          match (jget fields "Service_Category").bind coerceStr with
          | none => none
          | some c =>
            match (jget fields "Suggested_Actions").bind coerceStr with
            | none => none
            | some a => some (LabeledRequest.mk i p c a)
  | _ => none

/-- A batch response (src/schemas.py, class BatchResponse). -/
structure BatchResponse where
  results : List LabeledRequest
deriving DecidableEq, Repr

/-- Validate every element of the results array. -/
def validateResults : List JVal → Option (List LabeledRequest)
  | [] => some []
  | j :: js =>
    match validateLabeledRequest j with
    | none => none
    | some r =>
      match validateResults js with
      | none => none
      | some rs => some (r :: rs)

/-- Pydantic BatchResponse.model_validate_json on a parsed JSON value:
a top-level object with a results array of valid LabeledRequest objects. -/
def validateBatchResponse (j : JVal) : Option BatchResponse :=
  match j with
  | JVal.jobj fields =>
    match jget fields "results" with
    | some (JVal.jarr js) => (validateResults js).map BatchResponse.mk
    | _ => none
  | _ => none

/-- One payload item sent to the classifier
(src/label_batch.py lines 69-72: id, ts, comment). -/
structure BatchItem where
  id : Int
  ts : String
  comment : String
deriving DecidableEq, Repr

/-- Pydantic ValidationError raised by model_validate_json. -/
inductive ValidationError where
  | validationError : ValidationError
deriving DecidableEq, Repr

/-- Embedding of label_one_batch (src/label_batch.py lines 28-42).  The
external model call is abstracted as a function from the submitted batch to
the parsed JSON of its response; the returned text is then validated by
BatchResponse.model_validate_json, which raises ValidationError exactly when
the pydantic shape validation fails. -/
def label_one_batch (client : List BatchItem → JVal) (batchItems : List BatchItem) :
    Except ValidationError BatchResponse :=
  match validateBatchResponse (client batchItems) with
  | some r => Except.ok r
  | none => Except.error ValidationError.validationError

/-! ## Labeling orchestrator: src/label_batch.py, main (lines 44-103)

State passed explicitly: the ledger snapshot (None when predictions.csv does
not exist), the append-only predictions.jsonl log, the call counter.  The
classifier call is the abstract labeler function (one call per batch). -/

/-- A source record row of the cleaned input frame, with the fields main
reads: id, SR start date/time, Service Comments (plus the resident labels
used to build the allowed sets). -/
structure SrcRow where
  id : Int
  ts : String
  comment : String
  priority : String
  category : String
deriving DecidableEq, Repr

/-- Constant DAILY_CALL_CAP of src/label_batch.py. -/
def DAILY_CALL_CAP : Nat := 20

/-- Constant BATCH_SIZE of src/label_batch.py. -/
def BATCH_SIZE : Nat := 50

/-- How a run of main terminates: the early return when no ids are pending
(line 66), the break at the daily call cap (line 79), or the loop running
off the end of the batch list. -/
inductive RunStatus where
  | alreadyDone : RunStatus
  | quotaExhausted : RunStatus
  | completed : RunStatus
deriving DecidableEq, Repr

/-- Result of one orchestrator run: final status, number of classifier calls
made, final snapshot (predictions.csv, None if never written), final append
log (predictions.jsonl). -/
structure RunOutcome where
  status : RunStatus
  calls : Nat
  snapshot : Option (List LabeledRequest)
  log : List LabeledRequest
deriving DecidableEq, Repr

/-- read_done_ids (src/utils.py lines 36-43): ids listed in the snapshot;
empty when the file is missing. -/
def read_done_ids (snapshot : Option (List LabeledRequest)) : List Int :=
  (snapshot.getD []).map LabeledRequest.id

/-- Pending work (src/label_batch.py line 63): source rows whose id is not in
the done set, in source order. -/
def todoRows (df : List SrcRow) (snapshot : Option (List LabeledRequest)) : List SrcRow :=
  df.filter (fun r => decide (r.id ∉ read_done_ids snapshot))

/-- Payload built from the pending rows (src/label_batch.py lines 69-72). -/
def payloadRows (todo : List SrcRow) : List BatchItem :=
  todo.map (fun r => BatchItem.mk r.id r.ts r.comment)

/-- The batch loop of main (src/label_batch.py lines 74-89): for each batch,
stop if calls_made reached the cap, otherwise call the classifier, append the
records to the jsonl log and the in-memory accumulator, and count the call.
Returns (calls_made, accumulated records, log, status). -/
def runLoop (cap : Nat) (labeler : List BatchItem → List LabeledRequest) :
    List (List BatchItem) → Nat → List LabeledRequest → List LabeledRequest →
    Nat × List LabeledRequest × List LabeledRequest × RunStatus
  | [], calls, acc, log => (calls, acc, log, RunStatus.completed)
  | b :: rest, calls, acc, log =>
    if cap ≤ calls then (calls, acc, log, RunStatus.quotaExhausted)
    else
      let recs := labeler b
      runLoop cap labeler rest (calls + 1) (acc ++ recs) (log ++ recs)

/-- Final persistence step of main (src/label_batch.py lines 91-103): if the
run accumulated no records, return without writing; otherwise merge into the
existing snapshot when the file exists, else write the new records alone. -/
def persistStep (snapshot : Option (List LabeledRequest)) (recs : List LabeledRequest) :
    Option (List LabeledRequest) :=
  if recs = [] then snapshot
  else
    match snapshot with
    | some existing => some (mergeSnapshot existing recs)
    | none => some recs

/-- Embedding of main (src/label_batch.py lines 44-103) for one run, over an
abstract classifier.  cap and batchSize are DAILY_CALL_CAP and BATCH_SIZE in
the source. -/
def mainRun (cap batchSize : Nat) (labeler : List BatchItem → List LabeledRequest)
    (df : List SrcRow) (snapshot : Option (List LabeledRequest))
    (log : List LabeledRequest) : RunOutcome :=
  let todo := todoRows df snapshot
  if todo = [] then RunOutcome.mk RunStatus.alreadyDone 0 snapshot log
  else
    let batches := chunksOf batchSize (payloadRows todo)
    let r := runLoop cap labeler batches 0 [] log
    RunOutcome.mk r.2.2.2 r.1 (persistStep snapshot r.2.1) r.2.2.1

/-! ## Text normalization: src/utils.py, clean_text (lines 19-27)

A pandas frame is a list of named columns; a cell that may be NaN is an
Option String (astype(str) has already been accounted for by taking cells as
strings; a missing value is none).  clean_text copies the frame and, for each
of the three named columns that is present, replaces it by
fillna("").astype(str).str.strip(); every other column is untouched. -/

/-- One frame column: its cells in row order, none standing for NaN. -/
abbrev Col : Type := List (Option String)

/-- A pandas frame as an ordered list of (column name, column) pairs. -/
abbrev Frame : Type := List (String × Col)

/-- The transform applied to a present target column:
fillna("").astype(str).str.strip(). -/
def fillnaStrip (c : Col) : Col :=
  c.map (fun cell => some (cell.getD "").trim)

/-- Embedding of clean_text (src/utils.py lines 19-27).  The df.copy() of the
source is the purity of this function: the argument frame is a value and is
returned untouched to the caller. -/
def clean_text (df : Frame) : Frame :=
  df.map (fun nc =>
    if nc.1 = "Service Comments" ∨ nc.1 = "Priority" ∨ nc.1 = "Service Category"
    then (nc.1, fillnaStrip nc.2) else nc)

/-! ## Demo example curator: src/build_demo_examples.py

Rows of the joined population carry an id, a resident-selected priority, a
resident-selected category, and a payload of remaining columns that selection
never reads (comment and the ai_* columns).  The priority and category types
are kept abstract: priorities need a linear order (sorted(...) in the source
sorts the string labels), categories need decidable equality. -/

/-- A joined row as the curator sees it. -/
structure Row (P C E : Type) where
  id : Int
  prio : P
  cat : C
  extra : E
deriving DecidableEq, Repr

variable {P C E : Type}

/-- Number of rows of the population carrying a given priority value: the
value_counts entry of _compute_priority_targets (lines 24-31). -/
def countPrio (rows : List (Row P C E)) [DecidableEq P] (p : P) : Nat :=
  (rows.map Row.prio).count p

/-- The distinct priority values present, in sorted order:
sorted(counts.keys()) at line 32. -/
def prioritiesOf [LinearOrder P] (rows : List (Row P C E)) : List P :=
  List.insertionSort (fun a b => a ≤ b) (rows.map Row.prio).dedup

/-- Near-equal initial split (lines 38-45): the first remainder priority
values get base + 1, the rest get base, as an association list in sorted
priority order. -/
def initTargets (base : Nat) : List P → Nat → List (P × Nat)
  | [], _ => []
  | p :: rest, 0 => (p, base) :: initTargets base rest 0
  | p :: rest, Nat.succ r => (p, base + 1) :: initTargets base rest r

/-- Cap every target at the availability of its priority value, accumulating
the unassignable deficit (lines 47-52). -/
def capTargets (avail : P → Nat) : List (P × Nat) → List (P × Nat) × Nat
  | [] => ([], 0)
  | (p, t) :: rest =>
    let r := capTargets avail rest
    if avail p < t then ((p, avail p) :: r.1, r.2 + (t - avail p))
    else ((p, t) :: r.1, r.2)

/-- Value held for a key in a target association list (0 when absent,
matching remaining.get(priority, 0) in build_example_set). -/
def lookupTarget [DecidableEq P] (ts : List (P × Nat)) (p : P) : Nat :=
  ((ts.find? (fun q => decide (q.1 = p))).map (fun q => q.2)).getD 0

/-- Add one to the target of a key (targets[p] += 1 at line 61). -/
def bumpTarget [DecidableEq P] (ts : List (P × Nat)) (p : P) : List (P × Nat) :=
  ts.map (fun q => if q.1 = p then (q.1, q.2 + 1) else q)

/-- Sum of the values of a target association list. -/
def sumTargets (ts : List (P × Nat)) : Nat :=
  (ts.map (fun q => q.2)).sum

/-- The iteration order of one redistribution pass (line 57):
sorted(priorities, key=lambda x: (targets[x], x)). -/
def redistOrder [LinearOrder P] (ts : List (P × Nat)) : List P :=
  (List.insertionSort
    (fun a b => a.2 < b.2 ∨ (a.2 = b.2 ∧ a.1 ≤ b.1)) ts).map (fun q => q.1)

/-- Body of one pass of the redistribution loop (lines 56-65): walk the
priorities in redistOrder, give one leftover slot to each value with spare
availability, stop early when the deficit reaches zero.  Returns the new
targets, the remaining deficit, and whether any slot was assigned. -/
def redistPass [DecidableEq P] (avail : P → Nat) :
    List P → List (P × Nat) → Nat → Bool → List (P × Nat) × Nat × Bool
  | [], ts, d, progressed => (ts, d, progressed)
  | p :: rest, ts, d, progressed =>
    if avail p ≤ lookupTarget ts p then redistPass avail rest ts d progressed
    else
      let ts2 := bumpTarget ts p
      let d2 := d - 1
      if d2 = 0 then (ts2, d2, true)
      else redistPass avail rest ts2 d2 true

/-- The while-loop of lines 55-67, with fuel bounding the number of passes:
every productive pass strictly decreases the deficit, so fuel equal to the
initial deficit reproduces the source loop exactly (proved below). -/
def redistribute [LinearOrder P] (avail : P → Nat) :
    Nat → List (P × Nat) → Nat → List (P × Nat)
  | 0, ts, _ => ts
  | Nat.succ fuel, ts, d =>
    if d = 0 then ts
    else
      let r := redistPass avail (redistOrder ts) ts d false
      if r.2.2 then redistribute avail fuel r.1 r.2.1 else r.1

/-- Body of _compute_priority_targets after the empty check (lines 36-69):
n is first clamped to the total availability, the near-equal split is
computed with base = n div k and remainder = n mod k, capped at availability,
and the capped-off deficit is redistributed (the while-loop fuel is the
initial deficit, which the lemmas below prove sufficient). -/
def targetsPipeline [DecidableEq P] [LinearOrder P] (avail : P → Nat) (ps : List P)
    (n : Nat) : List (P × Nat) :=
  redistribute avail
    (capTargets avail (initTargets (min n ((ps.map avail).sum) / ps.length) ps
      (min n ((ps.map avail).sum) % ps.length))).2
    (capTargets avail (initTargets (min n ((ps.map avail).sum) / ps.length) ps
      (min n ((ps.map avail).sum) % ps.length))).1
    (capTargets avail (initTargets (min n ((ps.map avail).sum) / ps.length) ps
      (min n ((ps.map avail).sum) % ps.length))).2

/-- Embedding of _compute_priority_targets (src/build_demo_examples.py lines
17-69) over the cleaned priority column: empty input gives the empty
mapping (line 33-34), otherwise the quota pipeline runs on the sorted
distinct priority values with their row counts. -/
def compute_priority_targets [LinearOrder P] (rows : List (Row P C E)) (n : Nat) :
    List (P × Nat) :=
  if prioritiesOf rows = [] then []
  else targetsPipeline (fun p => countPrio rows p) (prioritiesOf rows) n

/-! ## Curator selection loop: build_example_set (lines 72-156)

The mutable selection state of the source (selected_rows, selected_ids,
global/per-priority category counters, seen_categories, remaining quotas) is
threaded explicitly.  Rows are tagged with their _order index by List.enum
over the shuffled frame.  The seeded pandas shuffle
df.sample(frac=1, random_state=seed) is abstracted as a function of the seed
and the list being shuffled; it is a fixed deterministic family, which is
exactly what a seeded PRNG provides. -/

/-- Strict lexicographic comparison of the 4-component sort key of
sort_values at lines 122-124. -/
def keyLt4 (a b : Nat × Nat × Nat × Nat) : Bool :=
  decide (a.1 < b.1) ||
    (a.1 == b.1 && (decide (a.2.1 < b.2.1) ||
      (a.2.1 == b.2.1 && (decide (a.2.2.1 < b.2.2.1) ||
        (a.2.2.1 == b.2.2.1 && decide (a.2.2.2 < b.2.2.2))))))

/-- The row a stable ascending sort puts first: the earliest row whose key is
minimal (sort_values(...).iloc[0]). -/
def argminBy (key : α → Nat × Nat × Nat × Nat) (x : α) (xs : List α) : α :=
  xs.foldl (fun b y => if keyLt4 (key y) (key b) then y else b) x

/-- Mutable state of the round-robin selection loop of build_example_set. -/
structure SelState (P C E : Type) where
  selected : List (Nat × Row P C E)
  selectedIds : List Int
  globalCat : C → Nat
  prioCat : P → C → Nat
  seenCats : List C
  remaining : List (P × Nat)

/-- Body of the inner for-loop for one priority value (lines 96-135): skip a
value with no remaining quota; an empty candidate pool zeroes the quota; else
pick the candidate minimal in (unseen rank, global category count,
per-priority category count, shuffle order) and update every counter.
Returns the new state and whether a pick was made. -/
def pickForPriority [DecidableEq P] [DecidableEq C]
    (rng : List (Nat × Row P C E)) (st : SelState P C E) (p : P) :
    SelState P C E × Bool :=
  if lookupTarget st.remaining p = 0 then (st, false)
  else
    let candidates := rng.filter
      (fun oc => decide (oc.2.prio = p) && decide (oc.2.id ∉ st.selectedIds))
    match candidates with
    | [] => (SelState.mk st.selected st.selectedIds st.globalCat st.prioCat
        st.seenCats (st.remaining.map (fun q => if q.1 = p then (q.1, 0) else q)), false)
    | c :: cs =>
      let key := fun (oc : Nat × Row P C E) =>
        ((if oc.2.cat ∈ st.seenCats then 1 else 0),
          st.globalCat oc.2.cat, st.prioCat p oc.2.cat, oc.1)
      let best := argminBy key c cs
      (SelState.mk (st.selected ++ [best]) (best.2.id :: st.selectedIds)
        (fun c2 => if c2 = best.2.cat then st.globalCat c2 + 1 else st.globalCat c2)
        (fun p2 c2 => if p2 = p ∧ c2 = best.2.cat then st.prioCat p2 c2 + 1
          else st.prioCat p2 c2)
        (best.2.cat :: st.seenCats)
        (st.remaining.map (fun q =>
          if q.1 = p then (q.1, q.2 - 1) else q)), true)

/-- One full pass of the for-loop over all priority values (lines 96-135),
accumulating whether any pick was made this pass. -/
def selectPass [DecidableEq P] [DecidableEq C] (rng : List (Nat × Row P C E))
    (prios : List P) (st : SelState P C E) : SelState P C E × Bool :=
  prios.foldl (fun acc p =>
    let r := pickForPriority rng acc.1 p
    (r.1, acc.2 || r.2)) (st, false)

/-- The while-loop of lines 94-138 with fuel: it runs while some quota
remains and the previous pass picked a row.  Every productive pass strictly
decreases the total remaining quota, so fuel of one more than the initial
total quota reproduces the source loop. -/
def selectLoop [DecidableEq P] [DecidableEq C] (rng : List (Nat × Row P C E))
    (prios : List P) : Nat → SelState P C E → SelState P C E
  | 0, st => st
  | Nat.succ fuel, st =>
    if sumTargets st.remaining = 0 then st
    else
      let r := selectPass rng prios st
      if r.2 then selectLoop rng prios fuel r.1 else r.1

/-- Constant N_EXAMPLES of src/build_demo_examples.py. -/
def N_EXAMPLES : Nat := 30

/-- Constant SEED of src/build_demo_examples.py. -/
def SEED : Nat := 42

/-- Embedding of build_example_set (src/build_demo_examples.py lines 72-156)
over an abstract seeded shuffle. -/
def build_example_set [LinearOrder P] [DecidableEq C]
    (shuffle : Nat → List (Row P C E) → List (Row P C E))
    (df : List (Row P C E)) (n : Nat) (seed : Nat) : List (Row P C E) :=
  if df.isEmpty then []
  else
    let n2 := min n df.length
    let shuffled := shuffle seed df
    let rng := shuffled.enum
    let targets := compute_priority_targets shuffled n2
    let prios := List.insertionSort (fun a b => a ≤ b) (targets.map (fun q => q.1))
    let st0 : SelState P C E := SelState.mk [] [] (fun _ => 0) (fun _ _ => 0) [] targets
    let stF := selectLoop rng prios (sumTargets targets + 1) st0
    let picked := stF.selected.map (fun oc => oc.2)
    let picked2 :=
      if picked.length < n2 then
        let need := n2 - picked.length
        let rem := rng.filter (fun oc => decide (oc.2.id ∉ stF.selectedIds))
        let topUp := (List.insertionSort (fun a b =>
          stF.globalCat a.2.cat < stF.globalCat b.2.cat ∨
            (stF.globalCat a.2.cat = stF.globalCat b.2.cat ∧ a.1 ≤ b.1)) rem).take need
        picked ++ topUp.map (fun oc => oc.2)
      else picked
    (shuffle seed picked2).take n2

/-! ## Demo artifact pipeline: build_demo_examples.py, main (lines 159-241)

After column renaming and cleaning (glue), main deduplicates the predictions
keeping the last row per id (line 214), inner-joins sample and predictions on
id (line 216), deduplicates the join keeping the first row per id (line 217),
raises when fewer than N_EXAMPLES rows remain (lines 218-222), and only then
builds and writes the demo artifact (lines 224-237).  The Except value below
is the written artifact: on the error path no artifact value exists. -/

/-- A cleaned sample row (lines 177-194). -/
structure SampleRec (P C : Type) where
  id : Int
  prio : P
  cat : C
  comment : String
deriving DecidableEq, Repr

/-- A cleaned prediction row (lines 196-213). -/
structure PredRec (P C : Type) where
  id : Int
  aiPrio : P
  aiCat : C
  suggested : String
deriving DecidableEq, Repr

/-- The non-selection columns of a joined demo row. -/
structure DemoExtra (P C : Type) where
  comment : String
  aiPrio : P
  aiCat : C
  suggested : String
deriving DecidableEq, Repr

/-- Pandas inner merge on id (line 216): each sample row paired with every
prediction row sharing its id, left order outer, right order inner. -/
def joinById (sample : List (SampleRec P C)) (preds : List (PredRec P C)) :
    List (Row P C (DemoExtra P C)) :=
  sample.flatMap (fun s =>
    (preds.filter (fun q => q.id == s.id)).map (fun q =>
      Row.mk s.id s.prio s.cat (DemoExtra.mk s.comment q.aiPrio q.aiCat q.suggested)))

/-- The deduplicated joined population main measures against N_EXAMPLES:
predictions deduplicated keep="last" (line 214), joined (line 216), then
deduplicated keep="first" on id (line 217). -/
def joinedPopulation (sample : List (SampleRec P C)) (preds : List (PredRec P C)) :
    List (Row P C (DemoExtra P C)) :=
  dropDupFirst Row.id (joinById sample (dropDupLast PredRec.id preds))

/-- The error raised at lines 218-222 when the joined population cannot
supply N_EXAMPLES rows, carrying the found row count. -/
inductive DemoError where
  | insufficientData : Nat → DemoError
deriving DecidableEq, Repr

/-- Embedding of main (src/build_demo_examples.py lines 159-241) from the
cleaned input rows on: the artifact is returned only when the joined
population reaches N_EXAMPLES rows; otherwise the error is raised first and
nothing is written. -/
def demoMain [LinearOrder P] [DecidableEq C]
    (shuffle : Nat → List (Row P C (DemoExtra P C)) → List (Row P C (DemoExtra P C)))
    (sample : List (SampleRec P C)) (preds : List (PredRec P C)) :
    Except DemoError (List (Row P C (DemoExtra P C))) :=
  let merged := joinedPopulation sample preds
  if merged.length < N_EXAMPLES then Except.error (DemoError.insufficientData merged.length)
  else Except.ok (build_example_set shuffle merged N_EXAMPLES SEED)

/-! ## Lemmas and claim theorems -/

theorem chunksOf_nil (n : Nat) : chunksOf n ([] : List α) = [] := by
  simp [chunksOf]

theorem chunksOf_cons (m : Nat) (x : α) (xs : List α) :
    chunksOf (m + 1) (x :: xs) =
      ((x :: xs).take (m + 1)) :: chunksOf (m + 1) ((x :: xs).drop (m + 1)) := by
  rw [chunksOf]

theorem chunksOf_join (n : Nat) (seq : List α) (hn : 0 < n) :
    (chunksOf n seq).flatten = seq := by
  induction n, seq using chunksOf.induct with
  | case1 n => simp [chunksOf]
  | case2 x xs => omega
  | case3 m x xs IH =>
    rw [chunksOf_cons]
    simp only [List.flatten_cons]
    rw [IH (Nat.succ_pos m), List.take_append_drop]

theorem chunksOf_length (n : Nat) (seq : List α) (hn : 0 < n) :
    (chunksOf n seq).length = (seq.length + n - 1) / n := by
  induction n, seq using chunksOf.induct with
  | case1 n =>
    rw [chunksOf_nil]
    simp only [List.length_nil, Nat.zero_add]
    exact (Nat.div_eq_of_lt (by omega)).symm
  | case2 x xs => omega
  | case3 m x xs IH =>
    simp only [Nat.succ_eq_add_one]
    rw [chunksOf_cons]
    simp only [List.length_cons]
    rw [IH (Nat.succ_pos m)]
    simp only [List.length_drop, List.length_cons]
    rcases Nat.lt_or_ge (xs.length + 1) (m + 1) with hlt | hge
    · have e1 : xs.length + 1 - (m + 1) + (m + 1) - 1 = m := by omega
      have e4 : xs.length + 1 + (m + 1) - 1 = (xs.length + 1 - 1) + (m + 1) := by omega
      rw [e1, e4, Nat.add_div_right _ (Nat.succ_pos m),
        Nat.div_eq_of_lt (by omega : m < m + 1),
        Nat.div_eq_of_lt (by omega : xs.length + 1 - 1 < m + 1)]
    · have e5 : xs.length + 1 - (m + 1) + (m + 1) - 1 = xs.length + 1 - 1 := by omega
      have e6 : xs.length + 1 + (m + 1) - 1 = (xs.length + 1 - 1) + (m + 1) := by omega
      rw [e5, e6, Nat.add_div_right _ (Nat.succ_pos m)]

theorem chunksOf_ne_nil_of_ne_nil (n : Nat) (seq : List α) (hn : 0 < n)
    (hs : seq ≠ []) : chunksOf n seq ≠ [] := by
  match n, seq with
  | _, [] => exact absurd rfl hs
  | 0, _ :: _ => omega
  | m + 1, x :: xs =>
    rw [chunksOf_cons]
    exact List.cons_ne_nil _ _

theorem chunksOf_dropLast_length (n : Nat) (seq : List α) (hn : 0 < n) :
    ∀ g ∈ (chunksOf n seq).dropLast, g.length = n := by
  induction n, seq using chunksOf.induct with
  | case1 n => simp [chunksOf]
  | case2 x xs => omega
  | case3 m x xs IH =>
    intro g hg
    rw [chunksOf_cons] at hg
    rcases hrest : chunksOf (m + 1) ((x :: xs).drop (m + 1)) with _ | ⟨r, rs⟩
    · rw [hrest] at hg
      simp at hg
    · rw [hrest] at hg
      rw [List.dropLast_cons₂] at hg
      rcases List.mem_cons.mp hg with hgt | hgm
      · subst hgt
        have hdx : (x :: xs).drop (m + 1) ≠ [] := by
          intro hnil
          rw [hnil, chunksOf_nil] at hrest
          exact List.cons_ne_nil r rs hrest.symm
        have hlen : m + 1 < (x :: xs).length := by
          by_contra hle
          push_neg at hle
          exact hdx (List.drop_eq_nil_of_le hle)
        rw [List.length_take]
        omega
      · have := IH (Nat.succ_pos m) g
        rw [hrest] at this
        exact this hgm

/-- C4: for every sequence of length L and positive size S, chunked yields
exactly ceil(L/S) groups, their concatenation restores the sequence with no
element duplicated, dropped or reordered, and every group except possibly the
last has length exactly S. -/
theorem chunked_partition (seq : List α) (S : Nat) (hS : 0 < S) :
    chunked seq (Int.ofNat S) = Except.ok (chunksOf S seq) ∧
    (chunksOf S seq).length = (seq.length + S - 1) / S ∧
    (chunksOf S seq).flatten = seq ∧
    ∀ g ∈ (chunksOf S seq).dropLast, g.length = S := by
  refine ⟨?_, chunksOf_length S seq hS, chunksOf_join S seq hS,
    chunksOf_dropLast_length S seq hS⟩
  unfold chunked
  have h0 : (Int.ofNat S) ≠ 0 := by
    simp only [ne_eq, Int.ofNat_eq_coe, Int.natCast_eq_zero]
    omega
  have h1 : ¬ (Int.ofNat S < 0) := by
    simp only [Int.ofNat_eq_coe, not_lt]
    exact Int.natCast_nonneg S
  rw [if_neg h0, if_neg h1]
  simp

/-- Witness for C4 at seq = [10, 20, 30], S = 2. -/
theorem chunked_partition_witness :
    0 < 2 ∧
      (chunked [10, 20, 30] (Int.ofNat 2) = Except.ok (chunksOf 2 [10, 20, 30]) ∧
      (chunksOf 2 [10, 20, 30]).length = ([10, 20, 30].length + 2 - 1) / 2 ∧
      (chunksOf 2 [10, 20, 30]).flatten = [10, 20, 30] ∧
      ∀ g ∈ (chunksOf 2 ([10, 20, 30] : List Nat)).dropLast, g.length = 2) :=
  ⟨by decide, chunked_partition [10, 20, 30] 2 (by decide)⟩

/-- C5 counterexample: at size -1 and a non-empty sequence, chunked does not
fail at all — it silently returns the empty grouping, which both lacks the
claimed ConfigError failure and is a malformed grouping of [1, 2, 3]. -/
theorem chunked_nonpositive_counterexample :
    chunked ([1, 2, 3] : List Nat) (-1) = Except.ok [] ∧
      (Except.ok [] : Except PyError (List (List Nat))) ≠ Except.error PyError.valueError := by
  constructor
  · rfl
  · simp

/-- C5 amended: no ConfigError type exists in the repository; chunked fails
only at size exactly 0, with the range builtin's ValueError, while every
negative size makes range(0, len(seq), size) empty so chunked silently
returns no groups at all. -/
theorem chunked_nonpositive_behavior (seq : List α) (n : Int) (hn : n ≤ 0) :
    (n = 0 → chunked seq n = Except.error PyError.valueError) ∧
    (n < 0 → chunked seq n = Except.ok []) := by
  constructor
  · intro h0
    subst h0
    rfl
  · intro hneg
    unfold chunked
    rw [if_neg (by omega), if_pos hneg]

/-- Witness for C5 amended at seq = [1, 2, 3], n = 0 and n = -1. -/
theorem chunked_nonpositive_behavior_witness :
    ((0 : Int) ≤ 0 ∧ ((0 : Int) = 0 → chunked ([1, 2, 3] : List Nat) 0 = Except.error PyError.valueError)) ∧
    ((-1 : Int) ≤ 0 ∧ ((-1 : Int) < 0 → chunked ([1, 2, 3] : List Nat) (-1) = Except.ok [])) :=
  ⟨⟨by decide, (chunked_nonpositive_behavior [1, 2, 3] 0 (by decide)).1⟩,
    ⟨by decide, (chunked_nonpositive_behavior [1, 2, 3] (-1) (by decide)).2⟩⟩

theorem find?_dropDupFirstAux (key : α → Int) (i : Int) (seen : List Int)
    (l : List α) (hi : i ∉ seen) :
    (dropDupFirstAux key seen l).find? (fun x => key x == i) =
      l.find? (fun x => key x == i) := by
  induction l generalizing seen with
  | nil => rfl
  | cons x xs IH =>
    by_cases hx : key x ∈ seen
    · rw [dropDupFirstAux, if_pos hx]
      have hne : (key x == i) = false := by
        apply beq_false_of_ne
        intro he
        exact hi (he ▸ hx)
      rw [List.find?_cons, hne]
      exact IH seen hi
    · rw [dropDupFirstAux, if_neg hx]
      by_cases hxi : key x = i
      · rw [List.find?_cons, List.find?_cons]
        have : (key x == i) = true := beq_iff_eq.mpr hxi
        rw [this]
      · have hne : (key x == i) = false := beq_false_of_ne hxi
        rw [List.find?_cons, List.find?_cons, hne]
        apply IH
        intro hmem
        rcases List.mem_cons.mp hmem with h1 | h2
        · exact hxi h1.symm
        · exact hi h2

theorem mem_keys_dropDupFirstAux (key : α → Int) (i : Int) (seen : List Int)
    (l : List α) :
    i ∈ (dropDupFirstAux key seen l).map key ↔ i ∈ l.map key ∧ i ∉ seen := by
  induction l generalizing seen with
  | nil => simp [dropDupFirstAux]
  | cons x xs IH =>
    by_cases hx : key x ∈ seen
    · rw [dropDupFirstAux, if_pos hx]
      rw [IH seen]
      simp only [List.map_cons, List.mem_cons]
      constructor
      · rintro ⟨h1, h2⟩
        exact ⟨Or.inr h1, h2⟩
      · rintro ⟨h1 | h1, h2⟩
        · exact absurd (h1 ▸ hx) h2
        · exact ⟨h1, h2⟩
    · rw [dropDupFirstAux, if_neg hx]
      simp only [List.map_cons, List.mem_cons]
      rw [IH (key x :: seen)]
      simp only [List.mem_cons]
      constructor
      · rintro (h1 | ⟨h1, h2⟩)
        · exact ⟨Or.inl h1, h1 ▸ hx⟩
        · exact ⟨Or.inr h1, fun hs => h2 (Or.inr hs)⟩
      · rintro ⟨h1 | h1, h2⟩
        · exact Or.inl h1
        · by_cases hxi : i = key x
          · exact Or.inl hxi
          · exact Or.inr ⟨h1, fun hs => hs.elim hxi h2⟩

theorem dropDupFirstAux_nil_of_seen (key : α → Int) (seen : List Int)
    (ys : List α) (h : ∀ y ∈ ys, key y ∈ seen) :
    dropDupFirstAux key seen ys = [] := by
  induction ys with
  | nil => rfl
  | cons y ys IH =>
    rw [dropDupFirstAux, if_pos (h y (List.mem_cons_self y ys))]
    exact IH (fun z hz => h z (List.mem_cons_of_mem y hz))

theorem dropDupFirstAux_append_absorb (key : α → Int) (seen : List Int)
    (xs ys : List α)
    (h : ∀ y ∈ ys, key y ∈ seen ∨ key y ∈ xs.map key) :
    dropDupFirstAux key seen (xs ++ ys) = dropDupFirstAux key seen xs := by
  induction xs generalizing seen with
  | nil =>
    simp only [List.nil_append]
    have h2 : ∀ z ∈ ys, key z ∈ seen := by
      intro z hz
      rcases h z hz with h3 | h3
      · exact h3
      · simp at h3
    rw [dropDupFirstAux_nil_of_seen key seen ys h2]
    rfl
  | cons x xs IH =>
    rw [List.cons_append, dropDupFirstAux, dropDupFirstAux]
    by_cases hx : key x ∈ seen
    · rw [if_pos hx, if_pos hx]
      apply IH
      intro y hy
      rcases h y hy with h1 | h1
      · exact Or.inl h1
      · rw [List.map_cons] at h1
        rcases List.mem_cons.mp h1 with h2 | h2
        · exact Or.inl (h2 ▸ hx)
        · exact Or.inr h2
    · rw [if_neg hx, if_neg hx]
      congr 1
      apply IH
      intro y hy
      rcases h y hy with h1 | h1
      · exact Or.inl (List.mem_cons_of_mem _ h1)
      · rw [List.map_cons] at h1
        rcases List.mem_cons.mp h1 with h2 | h2
        · exact Or.inl (h2 ▸ List.mem_cons_self _ _)
        · exact Or.inr h2

theorem keys_dropDupFirstAux_nodup (key : α → Int) (seen : List Int) (l : List α) :
    ((dropDupFirstAux key seen l).map key).Nodup ∧
      ∀ i ∈ (dropDupFirstAux key seen l).map key, i ∉ seen := by
  induction l generalizing seen with
  | nil => simp [dropDupFirstAux]
  | cons x xs IH =>
    by_cases hx : key x ∈ seen
    · rw [dropDupFirstAux, if_pos hx]
      exact IH seen
    · rw [dropDupFirstAux, if_neg hx]
      rcases IH (key x :: seen) with ⟨hnd, hns⟩
      refine ⟨List.nodup_cons.mpr ⟨?_, hnd⟩, ?_⟩
      · intro hmem
        exact hns (key x) hmem (List.mem_cons_self _ _)
      · intro i hi hiseen
        rw [List.map_cons] at hi
        rcases List.mem_cons.mp hi with h1 | h1
        · exact hx (h1 ▸ hiseen)
        · exact hns i h1 (List.mem_cons_of_mem _ hiseen)

theorem dropDupFirstAux_eq_self (key : α → Int) (seen : List Int) (l : List α)
    (hnd : (l.map key).Nodup) (hdisj : ∀ i ∈ l.map key, i ∉ seen) :
    dropDupFirstAux key seen l = l := by
  induction l generalizing seen with
  | nil => rfl
  | cons x xs IH =>
    rw [dropDupFirstAux]
    have hx : key x ∉ seen := hdisj (key x) (by simp)
    rw [if_neg hx]
    congr 1
    rw [List.map_cons] at hnd
    have hnc := List.nodup_cons.mp hnd
    apply IH
    · exact hnc.2
    · intro i hi hmem
      rcases List.mem_cons.mp hmem with h1 | h1
      · exact hnc.1 (h1 ▸ hi)
      · refine hdisj i ?_ h1
        rw [List.map_cons]
        exact List.mem_cons_of_mem _ hi

/-- C1 counterexample: merging a new result for id 1 into a snapshot that
already holds id 1 keeps the OLD snapshot row, not the most recently
appended one — pandas drop_duplicates defaults to keep="first", so the merge
of src/label_batch.py line 98 is first-write-wins, not last-write-wins. -/
theorem merge_last_write_wins_counterexample :
    findById 1 (mergeSnapshot
        [LabeledRequest.mk 1 "High" "Leak" "old message"]
        [LabeledRequest.mk 1 "Low" "Leak" "new message"]) =
      some (LabeledRequest.mk 1 "High" "Leak" "old message") ∧
    findById 1 (mergeSnapshot
        [LabeledRequest.mk 1 "High" "Leak" "old message"]
        [LabeledRequest.mk 1 "Low" "Leak" "new message"]) ≠
      some (LabeledRequest.mk 1 "Low" "Leak" "new message") := by
  constructor
  · rfl
  · intro h
    have := Option.some.inj h
    exact absurd (congrArg LabeledRequest.Priority this) (by decide)

/-- C1 amended: the merge deduplicates strictly on id but with
first-write-wins — for every id already present in the existing snapshot the
merged snapshot keeps the existing value, the newly appended one is dropped —
and the merge is idempotent: merging the same batch twice yields the same
snapshot as merging it once. -/
theorem merge_first_write_wins_idempotent (e n : List LabeledRequest) (i : Int)
    (h : i ∈ e.map LabeledRequest.id) :
    findById i (mergeSnapshot e n) = findById i e ∧
    mergeSnapshot (mergeSnapshot e n) n = mergeSnapshot e n := by
  constructor
  · unfold findById mergeSnapshot dropDupFirst
    rw [find?_dropDupFirstAux LabeledRequest.id i [] (e ++ n) (List.not_mem_nil i)]
    induction e with
    | nil => simp at h
    | cons x xs IH =>
      rw [List.cons_append, List.find?_cons, List.find?_cons]
      by_cases hx : (x.id == i) = true
      · rw [hx]
      · rw [Bool.not_eq_true] at hx
        rw [hx]
        apply IH
        rw [List.map_cons] at h
        rcases List.mem_cons.mp h with h1 | h1
        · exfalso
          have hb : (x.id == i) = true := beq_iff_eq.mpr h1.symm
          rw [hb] at hx
          exact absurd hx (by simp)
        · exact h1
  · unfold mergeSnapshot dropDupFirst
    rw [dropDupFirstAux_append_absorb]
    · apply dropDupFirstAux_eq_self
      · exact (keys_dropDupFirstAux_nodup LabeledRequest.id [] (e ++ n)).1
      · intro j _ hj
        exact absurd hj (List.not_mem_nil j)
    · intro y hy
      right
      rw [mem_keys_dropDupFirstAux]
      refine ⟨?_, List.not_mem_nil _⟩
      simp only [List.map_append, List.mem_append]
      right
      exact List.mem_map_of_mem LabeledRequest.id hy

/-- Witness for C1 amended at a concrete snapshot and batch sharing id 7. -/
theorem merge_first_write_wins_idempotent_witness :
    (7 : Int) ∈ ([LabeledRequest.mk 7 "High" "Leak" "a"].map LabeledRequest.id) ∧
    (findById 7 (mergeSnapshot [LabeledRequest.mk 7 "High" "Leak" "a"]
        [LabeledRequest.mk 7 "Low" "Leak" "b"]) =
      findById 7 [LabeledRequest.mk 7 "High" "Leak" "a"] ∧
    mergeSnapshot (mergeSnapshot [LabeledRequest.mk 7 "High" "Leak" "a"]
        [LabeledRequest.mk 7 "Low" "Leak" "b"]) [LabeledRequest.mk 7 "Low" "Leak" "b"] =
      mergeSnapshot [LabeledRequest.mk 7 "High" "Leak" "a"]
        [LabeledRequest.mk 7 "Low" "Leak" "b"]) :=
  ⟨by decide, merge_first_write_wins_idempotent
    [LabeledRequest.mk 7 "High" "Leak" "a"]
    [LabeledRequest.mk 7 "Low" "Leak" "b"] 7 (by decide)⟩

/-- C2 counterexample: a response carrying one result for a two-item batch,
with an id returned that was never submitted and a Priority outside any
allowed set, is accepted by label_one_batch rather than rejected with
ValidationError — the pydantic validation of src/label_batch.py line 42
checks shape only. -/
theorem label_one_batch_counterexample :
    label_one_batch (fun _ => JVal.jobj [("results", JVal.jarr [JVal.jobj
        [("id", JVal.jint 7), ("Priority", JVal.jstr "NOT_AN_ALLOWED_VALUE"),
         ("Service_Category", JVal.jstr "X"), ("Suggested_Actions", JVal.jstr "y")]])])
      [BatchItem.mk 1 "t1" "c1", BatchItem.mk 2 "t2" "c2"] =
      Except.ok (BatchResponse.mk [LabeledRequest.mk 7 "NOT_AN_ALLOWED_VALUE" "X" "y"]) ∧
    (BatchResponse.mk [LabeledRequest.mk 7 "NOT_AN_ALLOWED_VALUE" "X" "y"]).results.length ≠
      [BatchItem.mk 1 "t1" "c1", BatchItem.mk 2 "t2" "c2"].length := by
  constructor
  · rfl
  · decide

/-- C2 amended: label_one_batch rejects a batch with ValidationError exactly
when the response fails the pydantic shape validation of BatchResponse, and
accepts it otherwise; acceptance depends only on the shape of the returned
JSON, never on the submitted items — no result-count, id, or
enum-membership cross-check is performed (the allowed-value enums are only
injected into the outbound request schema). -/
theorem label_one_batch_validates_shape_only (client : List BatchItem → JVal)
    (items : List BatchItem) (r : BatchResponse) :
    (label_one_batch client items = Except.ok r ↔
      validateBatchResponse (client items) = some r) ∧
    (label_one_batch client items = Except.error ValidationError.validationError ↔
      validateBatchResponse (client items) = none) ∧
    (∀ (items2 : List BatchItem) (j : JVal),
      label_one_batch (fun _ => j) items = label_one_batch (fun _ => j) items2) := by
  refine ⟨?_, ?_, fun _ _ => rfl⟩
  all_goals unfold label_one_batch
  all_goals cases hv : validateBatchResponse (client items)
  · constructor
    · intro h
      exact absurd h (by simp)
    · intro h
      exact absurd h (by simp)
  · constructor
    · intro h
      simpa using h
    · intro h
      rw [Option.some.inj h]
  · simp
  · constructor
    · intro h
      exact absurd h (by simp)
    · intro h
      exact absurd h (by simp)

theorem clean_text_map_form (df : Frame) :
    clean_text df = df.map (fun nc =>
      if nc.1 = "Service Comments" ∨ nc.1 = "Priority" ∨ nc.1 = "Service Category"
      then (nc.1, fillnaStrip nc.2) else nc) := rfl

/-- C10: clean_text is frame-preserving: it keeps the column list (same
names, same order, a column absent from the input stays absent), and every
column other than Service Comments, Priority and Service Category is
returned identical to the input.  Non-destructiveness of the argument is the
df.copy() of line 20, embedded as purity: the input frame value is never
mutated. -/
theorem clean_text_frame_preserving (df : Frame) :
    (clean_text df).map Prod.fst = df.map Prod.fst ∧
    ∀ (i : Nat) (nc : String × Col), df[i]? = some nc →
      nc.1 ≠ "Service Comments" → nc.1 ≠ "Priority" → nc.1 ≠ "Service Category" →
      (clean_text df)[i]? = some nc := by
  constructor
  · rw [clean_text_map_form, List.map_map]
    apply List.map_congr_left
    intro nc _
    by_cases h : nc.1 = "Service Comments" ∨ nc.1 = "Priority" ∨ nc.1 = "Service Category"
    · simp [h]
    · simp [h]
  · intro i nc hi h1 h2 h3
    rw [clean_text_map_form, List.getElem?_map, hi, Option.map_some']
    have h : ¬ (nc.1 = "Service Comments" ∨ nc.1 = "Priority" ∨ nc.1 = "Service Category") := by
      intro hc
      rcases hc with hc | hc | hc
      · exact h1 hc
      · exact h2 hc
      · exact h3 hc
    rw [if_neg h]

/-- Witness for C10 at a two-column frame whose first column is untouched. -/
theorem clean_text_frame_preserving_witness :
    ((clean_text [("x", [some " a "]), ("Priority", [none])]).map Prod.fst =
      ([("x", [some " a "]), ("Priority", [none])] : Frame).map Prod.fst) ∧
    ([("x", [some " a "]), ("Priority", [none])] : Frame)[0]? = some ("x", [some " a "]) ∧
    ("x" ≠ "Service Comments" ∧ "x" ≠ "Priority" ∧ "x" ≠ "Service Category") ∧
    (clean_text [("x", [some " a "]), ("Priority", [none])])[0]? = some ("x", [some " a "]) :=
  ⟨(clean_text_frame_preserving [("x", [some " a "]), ("Priority", [none])]).1,
    rfl, ⟨by decide, by decide, by decide⟩,
    (clean_text_frame_preserving [("x", [some " a "]), ("Priority", [none])]).2 0
      ("x", [some " a "]) rfl (by decide) (by decide) (by decide)⟩

theorem runLoop_calls_le (cap : Nat) (labeler : List BatchItem → List LabeledRequest)
    (batches : List (List BatchItem)) (calls : Nat) (acc log : List LabeledRequest)
    (h : calls ≤ cap) :
    (runLoop cap labeler batches calls acc log).1 ≤ cap := by
  induction batches generalizing calls acc log with
  | nil => exact h
  | cons b rest IH =>
    rw [runLoop]
    by_cases hc : cap ≤ calls
    · rw [if_pos hc]
      exact h
    · rw [if_neg hc]
      exact IH (calls + 1) (acc ++ labeler b) (log ++ labeler b) (by omega)

theorem runLoop_quota (cap : Nat) (labeler : List BatchItem → List LabeledRequest)
    (batches : List (List BatchItem)) (calls : Nat) (acc log : List LabeledRequest)
    (hle : calls ≤ cap) (hgt : cap - calls < batches.length) :
    runLoop cap labeler batches calls acc log =
      (cap, acc ++ ((batches.take (cap - calls)).map labeler).flatten,
        log ++ ((batches.take (cap - calls)).map labeler).flatten,
        RunStatus.quotaExhausted) := by
  induction batches generalizing calls acc log with
  | nil => simp at hgt
  | cons b rest IH =>
    rw [runLoop]
    by_cases hc : cap ≤ calls
    · rw [if_pos hc]
      have hcc : calls = cap := Nat.le_antisymm hle hc
      have h0 : cap - calls = 0 := by omega
      rw [h0]
      simp [hcc]
    · rw [if_neg hc]
      push_neg at hc
      have hgt2 : cap - (calls + 1) < rest.length := by
        simp only [List.length_cons] at hgt
        omega
      rw [IH (calls + 1) (acc ++ labeler b) (log ++ labeler b) (by omega) hgt2]
      have hk : cap - calls = (cap - (calls + 1)) + 1 := by omega
      rw [hk]
      simp [List.append_assoc]

/-- C3: with call cap K and pending work requiring more than K batches, the
orchestrator makes exactly K classification calls — and at no point of the
loop does the count exceed K — terminates with the quota-exhaustion status,
distinct from completion and from the empty-pending status, and its final
snapshot is the merge of the results accumulated over those first K batches
(its log their append). -/
theorem quota_enforcement (cap batchSize : Nat)
    (labeler : List BatchItem → List LabeledRequest) (df : List SrcRow)
    (snapshot : Option (List LabeledRequest)) (log : List LabeledRequest)
    (hgt : cap < (chunksOf batchSize (payloadRows (todoRows df snapshot))).length) :
    (mainRun cap batchSize labeler df snapshot log).calls = cap ∧
    (∀ j : Nat, (runLoop cap labeler
      ((chunksOf batchSize (payloadRows (todoRows df snapshot))).take j) 0 [] log).1 ≤ cap) ∧
    (mainRun cap batchSize labeler df snapshot log).status = RunStatus.quotaExhausted ∧
    RunStatus.quotaExhausted ≠ RunStatus.completed ∧
    RunStatus.quotaExhausted ≠ RunStatus.alreadyDone ∧
    (mainRun cap batchSize labeler df snapshot log).snapshot =
      persistStep snapshot
        ((((chunksOf batchSize (payloadRows (todoRows df snapshot))).take cap).map labeler).flatten) ∧
    (mainRun cap batchSize labeler df snapshot log).log =
      log ++ (((chunksOf batchSize (payloadRows (todoRows df snapshot))).take cap).map labeler).flatten := by
  have htodo : todoRows df snapshot ≠ [] := by
    intro hnil
    rw [hnil] at hgt
    have : payloadRows [] = [] := rfl
    rw [this, chunksOf_nil] at hgt
    simp at hgt
  have hrun := runLoop_quota cap labeler
    (chunksOf batchSize (payloadRows (todoRows df snapshot))) 0 [] log
    (Nat.zero_le cap) (by simpa using hgt)
  have hmain : mainRun cap batchSize labeler df snapshot log =
      RunOutcome.mk RunStatus.quotaExhausted cap
        (persistStep snapshot
          ((((chunksOf batchSize (payloadRows (todoRows df snapshot))).take cap).map labeler).flatten))
        (log ++ (((chunksOf batchSize (payloadRows (todoRows df snapshot))).take cap).map labeler).flatten) := by
    unfold mainRun
    rw [if_neg htodo]
    simp only [hrun, Nat.sub_zero, List.nil_append]
  refine ⟨by rw [hmain], ?_, by rw [hmain], by simp, by simp, by rw [hmain], by rw [hmain]⟩
  intro j
  exact runLoop_calls_le cap labeler _ 0 [] log (Nat.zero_le cap)

/-- Witness for C3: two pending rows, batch size 1, cap 1. -/
theorem quota_enforcement_witness :
    (1 < (chunksOf 1 (payloadRows (todoRows
        [SrcRow.mk 1 "t1" "c1" "p" "k", SrcRow.mk 2 "t2" "c2" "p" "k"] none))).length) ∧
    (mainRun 1 1 (fun b => b.map (fun it => LabeledRequest.mk it.id "P" "C" "S"))
        [SrcRow.mk 1 "t1" "c1" "p" "k", SrcRow.mk 2 "t2" "c2" "p" "k"] none []).calls = 1 ∧
    (mainRun 1 1 (fun b => b.map (fun it => LabeledRequest.mk it.id "P" "C" "S"))
        [SrcRow.mk 1 "t1" "c1" "p" "k", SrcRow.mk 2 "t2" "c2" "p" "k"] none []).status =
      RunStatus.quotaExhausted := by
  have hgt : 1 < (chunksOf 1 (payloadRows (todoRows
      [SrcRow.mk 1 "t1" "c1" "p" "k", SrcRow.mk 2 "t2" "c2" "p" "k"] none))).length := by
    rw [chunksOf_length 1 _ (by decide)]
    decide
  have h := quota_enforcement 1 1
    (fun b => b.map (fun it => LabeledRequest.mk it.id "P" "C" "S"))
    [SrcRow.mk 1 "t1" "c1" "p" "k", SrcRow.mk 2 "t2" "c2" "p" "k"] none [] hgt
  exact ⟨hgt, h.1, h.2.2.1⟩

/-- C7: when every id of the source dataset is already present in the ledger
snapshot, a run makes zero classification calls, terminates with the
distinct already-done success status, and leaves both the snapshot and the
append log untouched — so a second run after a fully completed first run
makes no calls and changes nothing. -/
theorem idempotent_resume (cap batchSize : Nat)
    (labeler : List BatchItem → List LabeledRequest) (df : List SrcRow)
    (snapshot : Option (List LabeledRequest)) (log : List LabeledRequest)
    (h : ∀ r ∈ df, r.id ∈ read_done_ids snapshot) :
    mainRun cap batchSize labeler df snapshot log =
      RunOutcome.mk RunStatus.alreadyDone 0 snapshot log := by
  have htodo : todoRows df snapshot = [] := by
    unfold todoRows
    rw [List.filter_eq_nil_iff]
    intro r hr
    simp [h r hr]
  unfold mainRun
  rw [if_pos htodo]

/-- Witness for C7: one source row whose id is already in the snapshot. -/
theorem idempotent_resume_witness :
    (∀ r ∈ [SrcRow.mk 5 "t" "c" "p" "k"],
      r.id ∈ read_done_ids (some [LabeledRequest.mk 5 "High" "Leak" "m"])) ∧
    mainRun 20 50 (fun _ => []) [SrcRow.mk 5 "t" "c" "p" "k"]
        (some [LabeledRequest.mk 5 "High" "Leak" "m"]) [LabeledRequest.mk 5 "High" "Leak" "m"] =
      RunOutcome.mk RunStatus.alreadyDone 0 (some [LabeledRequest.mk 5 "High" "Leak" "m"])
        [LabeledRequest.mk 5 "High" "Leak" "m"] :=
  ⟨by decide, idempotent_resume 20 50 (fun _ => []) [SrcRow.mk 5 "t" "c" "p" "k"]
    (some [LabeledRequest.mk 5 "High" "Leak" "m"]) [LabeledRequest.mk 5 "High" "Leak" "m"]
    (by decide)⟩

/-- C8: the curator is deterministic: two invocations of build_example_set
with the same input rows, the same n and the same seed (hence the same
seeded shuffle family) produce identical output — the same selected rows in
the same final order.  All randomness flows through the seeded pandas
shuffle, embedded as a fixed function of the seed, so the whole construction
is a pure function of its inputs. -/
theorem build_example_set_deterministic {P C E : Type} [LinearOrder P] [DecidableEq C]
    (shuffle : Nat → List (Row P C E) → List (Row P C E))
    (df1 df2 : List (Row P C E)) (n1 n2 s1 s2 : Nat)
    (hdf : df1 = df2) (hn : n1 = n2) (hs : s1 = s2) :
    build_example_set shuffle df1 n1 s1 = build_example_set shuffle df2 n2 s2 := by
  subst hdf
  subst hn
  subst hs
  rfl

/-- Witness for C8 at a concrete two-row population. -/
theorem build_example_set_deterministic_witness :
    (([Row.mk 1 0 0 (), Row.mk 2 1 1 ()] : List (Row Nat Nat Unit)) =
        [Row.mk 1 0 0 (), Row.mk 2 1 1 ()] ∧ (2 : Nat) = 2 ∧ (42 : Nat) = 42) ∧
    build_example_set (fun _ l => l) ([Row.mk 1 0 0 (), Row.mk 2 1 1 ()] : List (Row Nat Nat Unit)) 2 42 =
      build_example_set (fun _ l => l) ([Row.mk 1 0 0 (), Row.mk 2 1 1 ()] : List (Row Nat Nat Unit)) 2 42 :=
  ⟨⟨rfl, rfl, rfl⟩, build_example_set_deterministic (fun _ l => l)
    [Row.mk 1 0 0 (), Row.mk 2 1 1 ()] [Row.mk 1 0 0 (), Row.mk 2 1 1 ()]
    2 2 42 42 rfl rfl rfl⟩

/-- C9: when the deduplicated joined population holds fewer rows than
N_EXAMPLES, the demo pipeline fails with the insufficient-data error before
the curator runs, and returns no artifact value — the demo-examples file is
neither created nor modified on this path, since the write happens only on
the ok branch. -/
theorem insufficient_data_no_artifact {P C : Type} [LinearOrder P] [DecidableEq C]
    (shuffle : Nat → List (Row P C (DemoExtra P C)) → List (Row P C (DemoExtra P C)))
    (sample : List (SampleRec P C)) (preds : List (PredRec P C))
    (h : (joinedPopulation sample preds).length < N_EXAMPLES) :
    demoMain shuffle sample preds =
      Except.error (DemoError.insufficientData (joinedPopulation sample preds).length) := by
  unfold demoMain
  rw [if_pos h]

/-- Witness for C9 at the empty joined population (0 rows, 30 required). -/
theorem insufficient_data_no_artifact_witness :
    ((joinedPopulation ([] : List (SampleRec Nat Nat)) ([] : List (PredRec Nat Nat))).length <
        N_EXAMPLES) ∧
    demoMain (fun _ l => l) ([] : List (SampleRec Nat Nat)) ([] : List (PredRec Nat Nat)) =
      Except.error (DemoError.insufficientData
        (joinedPopulation ([] : List (SampleRec Nat Nat)) ([] : List (PredRec Nat Nat))).length) :=
  ⟨by decide, insufficient_data_no_artifact (fun _ l => l) [] [] (by decide)⟩

section QuotaLemmas

variable {P : Type} [LinearOrder P]

theorem sum_map_add_distrib (f g : P → Nat) (l : List P) :
    (l.map (fun x => f x + g x)).sum = (l.map f).sum + (l.map g).sum := by
  induction l with
  | nil => rfl
  | cons a l IH =>
    simp only [List.map_cons, List.sum_cons, IH]
    omega

theorem sum_map_ite_one (l : List P) (a : P) (hnd : l.Nodup) :
    (l.map (fun p => if p = a then 1 else 0)).sum = if a ∈ l then 1 else 0 := by
  induction l with
  | nil => simp
  | cons b l IH =>
    rcases List.nodup_cons.mp hnd with ⟨hb, hl⟩
    simp only [List.map_cons, List.sum_cons]
    by_cases hba : b = a
    · subst hba
      rw [if_pos rfl, if_pos (List.mem_cons_self b l)]
      have ha : b ∉ l := hb
      rw [IH hl, if_neg ha]
    · rw [if_neg hba, IH hl]
      have : (a ∈ b :: l) ↔ (a ∈ l) := by
        constructor
        · intro h
          rcases List.mem_cons.mp h with h1 | h1
          · exact absurd h1.symm hba
          · exact h1
        · exact List.mem_cons_of_mem b
      by_cases hal : a ∈ l
      · rw [if_pos hal, if_pos (this.mpr hal)]
      · rw [if_neg hal, if_neg (fun hc => hal (this.mp hc))]

theorem sum_count_dedup (l : List P) :
    ((l.dedup).map (fun p => l.count p)).sum = l.length := by
  induction l with
  | nil => simp
  | cons a l IH =>
    have hcount : ∀ p : P, (a :: l).count p = l.count p + (if p = a then 1 else 0) := by
      intro p
      rw [List.count_cons]
      by_cases hpa : p = a
      · rw [if_pos hpa, if_pos (beq_iff_eq.mpr hpa.symm)]
      · have hap : ¬ (a = p) := fun h => hpa h.symm
        rw [if_neg hpa, if_neg (by simpa using hap)]
    by_cases ha : a ∈ l
    · rw [List.dedup_cons_of_mem ha]
      have : ((l.dedup).map (fun p => (a :: l).count p)).sum =
          ((l.dedup).map (fun p => l.count p + (if p = a then 1 else 0))).sum := by
        congr 1
        exact List.map_congr_left (fun p _ => hcount p)
      rw [this, sum_map_add_distrib, IH,
        sum_map_ite_one l.dedup a (List.nodup_dedup l),
        if_pos (List.mem_dedup.mpr ha)]
      simp
    · rw [List.dedup_cons_of_not_mem ha]
      simp only [List.map_cons, List.sum_cons]
      have : ((l.dedup).map (fun p => (a :: l).count p)).sum =
          ((l.dedup).map (fun p => l.count p + (if p = a then 1 else 0))).sum := by
        congr 1
        exact List.map_congr_left (fun p _ => hcount p)
      rw [this, sum_map_add_distrib, IH,
        sum_map_ite_one l.dedup a (List.nodup_dedup l),
        if_neg (fun hc => ha (List.mem_dedup.mp hc))]
      rw [hcount a, if_pos rfl, List.count_eq_zero.mpr ha]
      simp only [List.length_cons]
      omega

theorem lookupTarget_eq_of_mem (ts : List (P × Nat)) (p : P) (t : Nat)
    (hnd : (ts.map (fun q => q.1)).Nodup) (hmem : (p, t) ∈ ts) :
    lookupTarget ts p = t := by
  induction ts with
  | nil => simp at hmem
  | cons q rest IH =>
    rw [List.map_cons] at hnd
    rcases List.nodup_cons.mp hnd with ⟨hq, hrest⟩
    unfold lookupTarget
    by_cases hqp : q.1 = p
    · rw [show List.find? (fun q => decide (q.1 = p)) (q :: rest) = some q from
        List.find?_cons_of_pos _ (by simp [hqp])]
      simp only [Option.map_some', Option.getD_some]
      rcases List.mem_cons.mp hmem with h1 | h1
      · rw [← h1]
      · exfalso
        apply hq
        rw [hqp]
        exact List.mem_map_of_mem (fun q => q.1) h1
    · rw [show List.find? (fun q => decide (q.1 = p)) (q :: rest) =
          List.find? (fun q => decide (q.1 = p)) rest from
        List.find?_cons_of_neg _ (by simp [hqp])]
      rcases List.mem_cons.mp hmem with h1 | h1
      · exact absurd (congrArg Prod.fst h1.symm) hqp
      · have hr := IH hrest h1
        unfold lookupTarget at hr
        exact hr

theorem bumpTarget_keys (ts : List (P × Nat)) (p : P) :
    (bumpTarget ts p).map (fun q => q.1) = ts.map (fun q => q.1) := by
  unfold bumpTarget
  rw [List.map_map]
  apply List.map_congr_left
  intro q _
  by_cases hq : q.1 = p
  · simp [hq]
  · simp [hq]

theorem bumpTarget_eq_self (ts : List (P × Nat)) (p : P)
    (h : p ∉ ts.map (fun q => q.1)) : bumpTarget ts p = ts := by
  induction ts with
  | nil => rfl
  | cons q rest IH =>
    rw [List.map_cons] at h
    have hq1 : ¬ (q.1 = p) := by
      intro he
      exact h (by rw [← he]; exact List.mem_cons_self _ _)
    have h2 : p ∉ rest.map (fun q => q.1) := fun hc => h (List.mem_cons_of_mem _ hc)
    unfold bumpTarget
    simp only [List.map_cons]
    rw [if_neg hq1]
    have := IH h2
    unfold bumpTarget at this
    rw [this]

theorem bumpTarget_sum (ts : List (P × Nat)) (p : P)
    (hnd : (ts.map (fun q => q.1)).Nodup) (hmem : p ∈ ts.map (fun q => q.1)) :
    sumTargets (bumpTarget ts p) = sumTargets ts + 1 := by
  induction ts with
  | nil => simp at hmem
  | cons q rest IH =>
    rw [List.map_cons] at hnd hmem
    rcases List.nodup_cons.mp hnd with ⟨hq, hrest⟩
    by_cases hqp : q.1 = p
    · have hnp : p ∉ rest.map (fun q => q.1) := by
        rw [← hqp]
        exact hq
      unfold bumpTarget sumTargets
      simp only [List.map_cons, List.sum_cons]
      rw [if_pos hqp]
      have hself := bumpTarget_eq_self rest p hnp
      unfold bumpTarget at hself
      rw [hself]
      simp only [List.sum_cons]
      omega
    · rcases List.mem_cons.mp hmem with h1 | h1
      · exact absurd h1.symm hqp
      · unfold bumpTarget sumTargets
        simp only [List.map_cons, List.sum_cons]
        rw [if_neg hqp]
        have hIH := IH hrest h1
        unfold bumpTarget sumTargets at hIH
        omega

theorem bumpTarget_bound (avail : P → Nat) (ts : List (P × Nat)) (p : P)
    (hnd : (ts.map (fun q => q.1)).Nodup)
    (hbound : ∀ q ∈ ts, q.2 ≤ avail q.1)
    (hlt : lookupTarget ts p < avail p) :
    ∀ q ∈ bumpTarget ts p, q.2 ≤ avail q.1 := by
  intro q hqmem
  unfold bumpTarget at hqmem
  rcases List.mem_map.mp hqmem with ⟨q0, hq0, hfq⟩
  by_cases hq0p : q0.1 = p
  · rw [if_pos hq0p] at hfq
    have hl : lookupTarget ts p = q0.2 := by
      apply lookupTarget_eq_of_mem ts p q0.2 hnd
      have : q0 = (p, q0.2) := by
        rw [← hq0p]
      rw [← this]
      exact hq0
    rw [← hfq]
    simp only
    rw [hq0p]
    omega
  · rw [if_neg hq0p] at hfq
    rw [← hfq]
    exact hbound q0 hq0

theorem capTargets_keys (avail : P → Nat) (ts : List (P × Nat)) :
    (capTargets avail ts).1.map (fun q => q.1) = ts.map (fun q => q.1) := by
  induction ts with
  | nil => rfl
  | cons q rest IH =>
    unfold capTargets
    by_cases hc : avail q.1 < q.2
    · rw [if_pos hc]
      simp only [List.map_cons]
      rw [IH]
    · rw [if_neg hc]
      simp only [List.map_cons]
      rw [IH]

theorem capTargets_bound (avail : P → Nat) (ts : List (P × Nat)) :
    ∀ q ∈ (capTargets avail ts).1, q.2 ≤ avail q.1 := by
  intro q hq
  induction ts with
  | nil =>
    unfold capTargets at hq
    exact absurd hq (List.not_mem_nil q)
  | cons r rest IH =>
    unfold capTargets at hq
    by_cases hc : avail r.1 < r.2
    · rw [if_pos hc] at hq
      rcases List.mem_cons.mp hq with h1 | h1
      · rw [h1]
      · exact IH h1
    · rw [if_neg hc] at hq
      rcases List.mem_cons.mp hq with h1 | h1
      · rw [h1]
        exact Nat.le_of_not_lt hc
      · exact IH h1

theorem capTargets_sum (avail : P → Nat) (ts : List (P × Nat)) :
    sumTargets (capTargets avail ts).1 + (capTargets avail ts).2 = sumTargets ts := by
  induction ts with
  | nil => rfl
  | cons r rest IH =>
    unfold capTargets sumTargets
    by_cases hc : avail r.1 < r.2
    · rw [if_pos hc]
      simp only [List.map_cons, List.sum_cons]
      unfold sumTargets at IH
      omega
    · rw [if_neg hc]
      simp only [List.map_cons, List.sum_cons]
      unfold sumTargets at IH
      omega

theorem initTargets_keys (base : Nat) (ps : List P) (rem : Nat) :
    (initTargets base ps rem).map (fun q => q.1) = ps := by
  induction ps generalizing rem with
  | nil => rfl
  | cons p rest IH =>
    cases rem with
    | zero =>
      unfold initTargets
      simp only [List.map_cons]
      rw [IH]
    | succ r =>
      unfold initTargets
      simp only [List.map_cons]
      rw [IH]

theorem initTargets_sum (base : Nat) (ps : List P) (rem : Nat) :
    sumTargets (initTargets base ps rem) = ps.length * base + min rem ps.length := by
  induction ps generalizing rem with
  | nil => simp [initTargets, sumTargets]
  | cons p rest IH =>
    cases rem with
    | zero =>
      unfold initTargets sumTargets
      simp only [List.map_cons, List.sum_cons, List.length_cons]
      unfold sumTargets at IH
      rw [IH]
      simp only [Nat.zero_min]
      ring
    | succ r =>
      unfold initTargets sumTargets
      simp only [List.map_cons, List.sum_cons, List.length_cons]
      unfold sumTargets at IH
      rw [IH]
      have : min (r + 1) (rest.length + 1) = min r rest.length + 1 := by omega
      rw [this]
      ring

theorem redistOrder_mem (ts : List (P × Nat)) (p : P) :
    p ∈ redistOrder ts ↔ p ∈ ts.map (fun q => q.1) := by
  unfold redistOrder
  have hperm := List.perm_insertionSort
    (fun (a b : P × Nat) => a.2 < b.2 ∨ (a.2 = b.2 ∧ a.1 ≤ b.1)) ts
  exact (hperm.map (fun q => q.1)).mem_iff

theorem redistPass_spec (avail : P → Nat) (order : List P) :
    ∀ (ts : List (P × Nat)) (d : Nat) (prog : Bool),
    (ts.map (fun q => q.1)).Nodup →
    (∀ p ∈ order, p ∈ ts.map (fun q => q.1)) →
    (∀ q ∈ ts, q.2 ≤ avail q.1) →
    1 ≤ d →
    ((redistPass avail order ts d prog).1.map (fun q => q.1) = ts.map (fun q => q.1)) ∧
    (∀ q ∈ (redistPass avail order ts d prog).1, q.2 ≤ avail q.1) ∧
    (sumTargets (redistPass avail order ts d prog).1 + (redistPass avail order ts d prog).2.1 =
      sumTargets ts + d) ∧
    ((redistPass avail order ts d prog).2.1 ≤ d) ∧
    (prog = true → (redistPass avail order ts d prog).2.2 = true) ∧
    (prog = false → (redistPass avail order ts d prog).2.2 = false →
      (redistPass avail order ts d prog).1 = ts ∧
      (redistPass avail order ts d prog).2.1 = d ∧
      ∀ p ∈ order, avail p ≤ lookupTarget ts p) ∧
    (prog = false → (redistPass avail order ts d prog).2.2 = true →
      (redistPass avail order ts d prog).2.1 < d) := by
  induction order with
  | nil =>
    intro ts d prog hnd horder hbound hd
    have heq : redistPass avail [] ts d prog = (ts, d, prog) := rfl
    rw [heq]
    refine ⟨rfl, hbound, ?_, Nat.le_refl d, fun h => h, ?_, ?_⟩
    · show sumTargets ts + d = sumTargets ts + d
      rfl
    · intro _ _
      exact ⟨rfl, rfl, by intro p hp; simp at hp⟩
    · intro hf ht
      rw [hf] at ht
      simp at ht
  | cons p rest IH =>
    intro ts d prog hnd horder hbound hd
    have hpk : p ∈ ts.map (fun q => q.1) := horder p (List.mem_cons_self p rest)
    have horder2 : ∀ p2 ∈ rest, p2 ∈ ts.map (fun q => q.1) :=
      fun p2 hp2 => horder p2 (List.mem_cons_of_mem p hp2)
    by_cases hsk : avail p ≤ lookupTarget ts p
    · have heq : redistPass avail (p :: rest) ts d prog =
          redistPass avail rest ts d prog := by
        conv_lhs => unfold redistPass
        rw [if_pos hsk]
      rw [heq]
      have hI := IH ts d prog hnd horder2 hbound hd
      refine ⟨hI.1, hI.2.1, hI.2.2.1, hI.2.2.2.1, hI.2.2.2.2.1, ?_, hI.2.2.2.2.2.2⟩
      intro hf hprog
      rcases hI.2.2.2.2.2.1 hf hprog with ⟨h1, h2, h3⟩
      refine ⟨h1, h2, ?_⟩
      intro p2 hp2
      rcases List.mem_cons.mp hp2 with he | he
      · rw [he]
        exact hsk
      · exact h3 p2 he
    · push_neg at hsk
      have hbk : (bumpTarget ts p).map (fun q => q.1) = ts.map (fun q => q.1) :=
        bumpTarget_keys ts p
      have hbnd2 : ∀ q ∈ bumpTarget ts p, q.2 ≤ avail q.1 :=
        bumpTarget_bound avail ts p hnd hbound hsk
      have hsum2 : sumTargets (bumpTarget ts p) = sumTargets ts + 1 :=
        bumpTarget_sum ts p hnd hpk
      have heq : redistPass avail (p :: rest) ts d prog =
          if d - 1 = 0 then (bumpTarget ts p, d - 1, true)
          else redistPass avail rest (bumpTarget ts p) (d - 1) true := by
        conv_lhs => unfold redistPass
        rw [if_neg (not_le.mpr hsk)]
      rw [heq]
      by_cases hd0 : d - 1 = 0
      · rw [if_pos hd0]
        refine ⟨hbk, hbnd2, ?_, ?_, fun _ => rfl, ?_, ?_⟩
        · show sumTargets (bumpTarget ts p) + (d - 1) = sumTargets ts + d
          rw [hsum2]
          omega
        · show d - 1 ≤ d
          omega
        · intro _ ht
          simp at ht
        · intro _ _
          show d - 1 < d
          omega
      · rw [if_neg hd0]
        have hnd2 : ((bumpTarget ts p).map (fun q => q.1)).Nodup := by
          rw [hbk]
          exact hnd
        have horder3 : ∀ p2 ∈ rest, p2 ∈ (bumpTarget ts p).map (fun q => q.1) := by
          intro p2 hp2
          rw [hbk]
          exact horder2 p2 hp2
        have hd2 : 1 ≤ d - 1 := by omega
        have hI := IH (bumpTarget ts p) (d - 1) true hnd2 horder3 hbnd2 hd2
        refine ⟨?_, hI.2.1, ?_, ?_, fun _ => hI.2.2.2.2.1 rfl, ?_, ?_⟩
        · rw [hI.1, hbk]
        · have hc := hI.2.2.1
          rw [hsum2] at hc
          omega
        · have hdle := hI.2.2.2.1
          omega
        · intro _ ht
          have he := hI.2.2.2.2.1 rfl
          rw [he] at ht
          exact absurd ht (by simp)
        · intro _ _
          have hdle := hI.2.2.2.1
          omega

theorem redistribute_spec (avail : P → Nat) (n2 : Nat) :
    ∀ (fuel : Nat) (ts : List (P × Nat)) (d : Nat),
    (ts.map (fun q => q.1)).Nodup →
    (∀ q ∈ ts, q.2 ≤ avail q.1) →
    sumTargets ts + d = n2 →
    n2 ≤ ((ts.map (fun q => q.1)).map avail).sum →
    d ≤ fuel →
    ((redistribute avail fuel ts d).map (fun q => q.1) = ts.map (fun q => q.1)) ∧
    (∀ q ∈ redistribute avail fuel ts d, q.2 ≤ avail q.1) ∧
    sumTargets (redistribute avail fuel ts d) = n2 := by
  intro fuel
  induction fuel with
  | zero =>
    intro ts d hnd hbound hsum havail hdf
    have hd0 : d = 0 := Nat.le_zero.mp hdf
    have heq : redistribute avail 0 ts d = ts := rfl
    rw [heq]
    exact ⟨rfl, hbound, by omega⟩
  | succ fuel IH =>
    intro ts d hnd hbound hsum havail hdf
    by_cases hd0 : d = 0
    · have heq : redistribute avail (fuel + 1) ts d = ts := by
        conv_lhs => unfold redistribute
        rw [if_pos hd0]
      rw [heq]
      exact ⟨rfl, hbound, by omega⟩
    · have hd1 : 1 ≤ d := Nat.one_le_iff_ne_zero.mpr hd0
      have horder : ∀ p ∈ redistOrder ts, p ∈ ts.map (fun q => q.1) :=
        fun p hp => (redistOrder_mem ts p).mp hp
      have hp := redistPass_spec avail (redistOrder ts) ts d false hnd horder hbound hd1
      have heq : redistribute avail (fuel + 1) ts d =
          if (redistPass avail (redistOrder ts) ts d false).2.2
          then redistribute avail fuel (redistPass avail (redistOrder ts) ts d false).1
            (redistPass avail (redistOrder ts) ts d false).2.1
          else (redistPass avail (redistOrder ts) ts d false).1 := by
        conv_lhs => unfold redistribute
        rw [if_neg hd0]
      rw [heq]
      cases hprog : (redistPass avail (redistOrder ts) ts d false).2.2 with
      | false =>
        rw [if_neg (by simp : ¬ (false = true))]
        exfalso
        rcases hp.2.2.2.2.2.1 rfl hprog with ⟨hts, hdd, hsat⟩
        have hfull : ∀ q ∈ ts, q.2 = avail q.1 := by
          intro q hq
          have h1 := hbound q hq
          have h2 : avail q.1 ≤ lookupTarget ts q.1 := by
            apply hsat q.1
            rw [redistOrder_mem]
            exact List.mem_map_of_mem (fun q => q.1) hq
          have h3 : lookupTarget ts q.1 = q.2 := by
            apply lookupTarget_eq_of_mem ts q.1 q.2 hnd
            rw [Prod.mk.eta]
            exact hq
          omega
        have hsame : sumTargets ts = ((ts.map (fun q => q.1)).map avail).sum := by
          unfold sumTargets
          rw [List.map_map]
          congr 1
          exact List.map_congr_left (fun q hq => hfull q hq)
        omega
      | true =>
        rw [if_pos (rfl : true = true)]
        have hklt := hp.2.2.2.2.2.2 rfl hprog
        have hnd2 : ((redistPass avail (redistOrder ts) ts d false).1.map
            (fun q => q.1)).Nodup := by
          rw [hp.1]
          exact hnd
        have hsum2 : sumTargets (redistPass avail (redistOrder ts) ts d false).1 +
            (redistPass avail (redistOrder ts) ts d false).2.1 = n2 := by
          rw [hp.2.2.1]
          omega
        have havail2 : n2 ≤ (((redistPass avail (redistOrder ts) ts d false).1.map
            (fun q => q.1)).map avail).sum := by
          rw [hp.1]
          exact havail
        have hI := IH (redistPass avail (redistOrder ts) ts d false).1
          (redistPass avail (redistOrder ts) ts d false).2.1
          hnd2 hp.2.1 hsum2 havail2 (by omega)
        refine ⟨?_, hI.2.1, hI.2.2⟩
        rw [hI.1, hp.1]

theorem targetsPipeline_spec (avail : P → Nat) (ps : List P) (n : Nat)
    (hnd : ps.Nodup) (hlen : 0 < ps.length) :
    ((targetsPipeline avail ps n).map (fun q => q.1) = ps) ∧
    (∀ q ∈ targetsPipeline avail ps n, q.2 ≤ avail q.1) ∧
    sumTargets (targetsPipeline avail ps n) = min n ((ps.map avail).sum) := by
  unfold targetsPipeline
  set n2 := min n ((ps.map avail).sum) with hn2
  set t0 := initTargets (n2 / ps.length) ps (n2 % ps.length) with ht0
  have hk0 : t0.map (fun q => q.1) = ps := initTargets_keys _ ps _
  have hk1 : (capTargets avail t0).1.map (fun q => q.1) = ps := by
    rw [capTargets_keys]
    exact hk0
  have hnd1 : ((capTargets avail t0).1.map (fun q => q.1)).Nodup := by
    rw [hk1]
    exact hnd
  have hb1 : ∀ q ∈ (capTargets avail t0).1, q.2 ≤ avail q.1 := capTargets_bound avail t0
  have hsum0 : sumTargets t0 = n2 := by
    rw [ht0, initTargets_sum]
    have hrem : n2 % ps.length < ps.length := Nat.mod_lt _ hlen
    rw [min_eq_left (Nat.le_of_lt hrem)]
    exact Nat.div_add_mod n2 ps.length
  have hsum1 : sumTargets (capTargets avail t0).1 + (capTargets avail t0).2 = n2 := by
    rw [capTargets_sum]
    exact hsum0
  have havail1 : n2 ≤ (((capTargets avail t0).1.map (fun q => q.1)).map avail).sum := by
    rw [hk1, hn2]
    exact min_le_right _ _
  have hspec := redistribute_spec avail n2 (capTargets avail t0).2
    (capTargets avail t0).1 (capTargets avail t0).2 hnd1 hb1 hsum1 havail1
    (Nat.le_refl _)
  refine ⟨?_, hspec.2.1, hspec.2.2⟩
  rw [hspec.1, hk1]

end QuotaLemmas

/-- C6: the curator's per-priority quota computation starts from the
near-equal split of base plus one extra for the first remainder values in
sorted priority order, caps each quota at that value's availability, and
redistributes the shortfall to values with spare capacity preferring the
least-assigned; the resulting quotas keep the sorted priority keys, each
stays at or below that value's available row count, and they sum to
min(N, total available rows) — no slot is lost while availability remains. -/
theorem compute_priority_targets_balanced {P C E : Type} [LinearOrder P]
    (rows : List (Row P C E)) (n : Nat) :
    ((compute_priority_targets rows n).map (fun q => q.1) = prioritiesOf rows) ∧
    (∀ q ∈ compute_priority_targets rows n, q.2 ≤ countPrio rows q.1) ∧
    sumTargets (compute_priority_targets rows n) = min n rows.length := by
  have hperm := List.perm_insertionSort (fun (a b : P) => a ≤ b)
    (rows.map Row.prio).dedup
  have hnd : (prioritiesOf rows).Nodup := by
    unfold prioritiesOf
    exact hperm.nodup_iff.mpr (List.nodup_dedup _)
  by_cases hps : prioritiesOf rows = []
  · have hdedup : (rows.map Row.prio).dedup = [] := by
      unfold prioritiesOf at hps
      have h2 := hperm
      rw [hps] at h2
      exact (h2.symm).eq_nil
    have hrows : rows = [] :=
      List.map_eq_nil_iff.mp ((List.dedup_eq_nil (rows.map Row.prio)).mp hdedup)
    have heq : compute_priority_targets rows n = [] := by
      unfold compute_priority_targets
      rw [if_pos hps]
    rw [heq, hps, hrows]
    refine ⟨rfl, ?_, ?_⟩
    · intro q hq
      simp at hq
    · simp [sumTargets]
  · have hlen : 0 < (prioritiesOf rows).length := List.length_pos.mpr hps
    have heq : compute_priority_targets rows n =
        targetsPipeline (fun p => countPrio rows p) (prioritiesOf rows) n := by
      unfold compute_priority_targets
      rw [if_neg hps]
    rw [heq]
    have hspec := targetsPipeline_spec (fun p => countPrio rows p)
      (prioritiesOf rows) n hnd hlen
    have htot : ((prioritiesOf rows).map (fun p => countPrio rows p)).sum =
        rows.length := by
      unfold prioritiesOf countPrio
      have hsums := (hperm.map (fun p => (rows.map Row.prio).count p)).sum_eq
      rw [hsums, sum_count_dedup, List.length_map]
    rw [htot] at hspec
    exact hspec

/-- Witness for C6 at the spec's capped example: availability 5 and 995 with
N = 30 gives quotas 5 and 25, summing to 30 with no slot lost.  The
hypotheses of the theorem are trivial (it is unconditional), so this records
the concrete capped-redistribution behavior alongside it. -/
theorem compute_priority_targets_balanced_witness :
    ((compute_priority_targets
        (((List.range 5).map (fun i => Row.mk (Int.ofNat i) 0 0 ()) ++
          (List.range 995).map (fun i => Row.mk (Int.ofNat (1000 + i)) 1 0 ())) :
          List (Row Nat Nat Unit)) 30).map (fun q => q.1) =
      prioritiesOf (((List.range 5).map (fun i => Row.mk (Int.ofNat i) 0 0 ()) ++
          (List.range 995).map (fun i => Row.mk (Int.ofNat (1000 + i)) 1 0 ())) :
          List (Row Nat Nat Unit))) ∧
    (∀ q ∈ compute_priority_targets
        (((List.range 5).map (fun i => Row.mk (Int.ofNat i) 0 0 ()) ++
          (List.range 995).map (fun i => Row.mk (Int.ofNat (1000 + i)) 1 0 ())) :
          List (Row Nat Nat Unit)) 30,
      q.2 ≤ countPrio (((List.range 5).map (fun i => Row.mk (Int.ofNat i) 0 0 ()) ++
          (List.range 995).map (fun i => Row.mk (Int.ofNat (1000 + i)) 1 0 ())) :
          List (Row Nat Nat Unit)) q.1) ∧
    sumTargets (compute_priority_targets
        (((List.range 5).map (fun i => Row.mk (Int.ofNat i) 0 0 ()) ++
          (List.range 995).map (fun i => Row.mk (Int.ofNat (1000 + i)) 1 0 ())) :
          List (Row Nat Nat Unit)) 30) =
      min 30 (((List.range 5).map (fun i => Row.mk (Int.ofNat i) 0 0 ()) ++
          (List.range 995).map (fun i => Row.mk (Int.ofNat (1000 + i)) 1 0 ())) :
          List (Row Nat Nat Unit)).length :=
  compute_priority_targets_balanced _ 30

end TicketPipeline
